import Mathlib

/-!
Shallow embedding of the turnpike WAMP router core (broker.go, router.go).

Go maps become `Finmap`; Go map iteration order is nondeterministic, so
operations that iterate a map are parametrised by an enumeration list that is
related to the map by a hypothesis.  Sessions are identified by an abstract
reference (Go compares `*Session` pointers); dynamic `interface{}` option
values are modelled by a small value type with decidable equality.
-/

namespace Turnpike

/-- Opaque string identifier for realms, topics and error codes. -/
abbrev URI := String

/-- WAMP ID (64-bit in Go; modelled as `Nat`, only equality is used). -/
abbrev ID := Nat

/-- Identity of a `*Session` pointer; Go compares sessions by pointer. -/
abbrev SessionRef := Nat

/-- Dynamic option values (`interface{}` in Go) restricted to the comparisons
the broker performs: equality tests and the `.(bool)` assertion. -/
inductive Val
  | vBool (b : Bool)
  | vInt (n : Int)
  | vStr (s : String)
deriving DecidableEq

/-- An option map `map[string]interface{}`; stored wholesale and only ever
read through key lookup. -/
abbrev OptMap := List (String × Val)

/-- Go map lookup on an option map (first binding wins; a Go map has at most
one binding per key). -/
def olookup (m : OptMap) (k : String) : Option Val :=
  match m with
  | [] => none
  | (k', v) :: rest => if k' = k then some v else olookup rest k

/-- WAMP message kinds used by the modelled code paths. -/
inductive MsgType
  | HELLO
  | PUBLISH
  | SUBSCRIBE
  | UNSUBSCRIBE
  | GOODBYE
deriving DecidableEq

def ErrNoSuchSubscription : URI := "wamp.error.no_such_subscription"

def ErrSystemShutdown : URI := "wamp.error.system_shutdown"

def ErrNoSuchRealm : URI := "wamp.error.no_such_realm"

def ErrAuthorizationFailed : URI := "wamp.error.authorization_failed"

/-- SUBSCRIBE message fields used by the broker. -/
structure SubscribeMsg where
  request : ID
  options : OptMap
  topic : URI
deriving DecidableEq

/-- UNSUBSCRIBE message fields used by the broker. -/
structure UnsubscribeMsg where
  request : ID
  subscription : ID
deriving DecidableEq

/-- PUBLISH message fields used by the broker. -/
structure PublishMsg where
  request : ID
  options : OptMap
  topic : URI
  arguments : List Val
  argumentsKw : OptMap
deriving DecidableEq

/-- Messages the broker sends to peers. -/
inductive OutMsg
  | subscribed (request subscription : ID)
  | unsubscribed (request : ID)
  | errorMsg (type : MsgType) (request : ID) (error : URI)
  | event (subscription publication : ID) (details : OptMap)
      (arguments : List Val) (argumentsKw : OptMap)
  | published (request publication : ID)
deriving DecidableEq

/-- A send performed by the broker: recipient session and message. -/
abbrev Send := SessionRef × OutMsg

/-- The four maps of `defaultBroker` (the lock is a concurrency artefact and
each operation is modelled as an atomic state transformer). -/
@[ext]
structure BrokerState where
  options : Finmap fun _ : URI => Finmap fun _ : ID => OptMap
  routes : Finmap fun _ : URI => Finmap fun _ : ID => SessionRef
  subscriptions : Finmap fun _ : ID => URI
  sessions : Finmap fun _ : SessionRef => Finset ID
deriving DecidableEq

/-- `NewDefaultBroker`: all four maps empty. -/
def brokerInit : BrokerState :=
  { options := ∅, routes := ∅, subscriptions := ∅, sessions := ∅ }

/-- Two-level lookup `m[t][id]` on a nested map, `none` when either level is
missing (a missing Go map indexes as an empty map). -/
def lookup2 {γ : Type} (m : Finmap fun _ : URI => Finmap fun _ : ID => γ)
    (t : URI) (id : ID) : Option γ :=
  (m.lookup t).bind fun r => r.lookup id

/-- The subscription-ID set held by session `s` (`br.sessions[s]`; a missing
entry reads as the empty set). -/
def sset (b : BrokerState) (s : SessionRef) : Finset ID :=
  (b.sessions.lookup s).getD ∅

/-- `defaultBroker.Subscribe` (broker.go lines 80-109).  `NewID()` is an
external random source, so the fresh ID is a parameter. -/
def subscribe (b : BrokerState) (sub : SessionRef) (msg : SubscribeMsg)
    (id : ID) : BrokerState × List Send :=
  let route := (b.routes.lookup msg.topic).getD ∅
  let option := (b.options.lookup msg.topic).getD ∅
  let subs := (b.sessions.lookup sub).getD ∅
  ({ routes := b.routes.insert msg.topic (route.insert id sub)
     options := b.options.insert msg.topic (option.insert id msg.options)
     sessions := b.sessions.insert sub (insert id subs)
     subscriptions := b.subscriptions.insert id msg.topic },
   [(sub, OutMsg.subscribed msg.request id)])

/-- The "clean up routes" / "clean up options" block of Unsubscribe and
RemoveSubscriber: delete `m[t][id]` if present, pruning `t` when its inner
map becomes empty; missing entries are logged and tolerated. -/
def eraseClean {γ : Type} [DecidableEq γ]
    (m : Finmap fun _ : URI => Finmap fun _ : ID => γ) (t : URI) (id : ID) :
    Finmap fun _ : URI => Finmap fun _ : ID => γ :=
  match m.lookup t with
  | none => m
  | some r =>
    if id ∈ r then
      let r' := r.erase id
      if r' = ∅ then m.erase t else m.insert t r'
    else m

/-- The "clean up sender's subscription" block of Unsubscribe: delete
`m[s] ∋ id` if present, pruning `s` when its set becomes empty. -/
def eraseSess (m : Finmap fun _ : SessionRef => Finset ID)
    (s : SessionRef) (id : ID) : Finmap fun _ : SessionRef => Finset ID :=
  match m.lookup s with
  | none => m
  | some S =>
    if id ∈ S then
      let S' := S.erase id
      if S' = ∅ then m.erase s else m.insert s S'
    else m

/-- `defaultBroker.Unsubscribe` (broker.go lines 111-165). -/
def unsubscribe (b : BrokerState) (sub : SessionRef) (msg : UnsubscribeMsg) :
    BrokerState × List Send :=
  match b.subscriptions.lookup msg.subscription with
  | none =>
    (b, [(sub, OutMsg.errorMsg MsgType.UNSUBSCRIBE msg.request
            ErrNoSuchSubscription)])
  | some topic =>
    ({ subscriptions := b.subscriptions.erase msg.subscription
       routes := eraseClean b.routes topic msg.subscription
       options := eraseClean b.options topic msg.subscription
       sessions := eraseSess b.sessions sub msg.subscription },
     [(sub, OutMsg.unsubscribed msg.request)])

/-- One iteration of the RemoveSubscriber loop body for subscription `id`
(broker.go lines 171-197). -/
def cleanupID (b : BrokerState) (id : ID) : BrokerState :=
  match b.subscriptions.lookup id with
  | none => b
  | some topic =>
    { b with
      subscriptions := b.subscriptions.erase id
      routes := eraseClean b.routes topic id
      options := eraseClean b.options topic id }

/-- `defaultBroker.RemoveSubscriber` (broker.go lines 167-199).  `l` is the
order in which Go happens to iterate `br.sessions[sub]`; theorems relate it
to the set by hypothesis. -/
def removeSubscriber (b : BrokerState) (sub : SessionRef) (l : List ID) :
    BrokerState :=
  let b' := l.foldl cleanupID b
  { b' with sessions := b'.sessions.erase sub }

/-- The option filter of Publish (broker.go lines 60-64): iterate the
publisher's options; a key bound in both maps with different values
disqualifies the subscriber. -/
def optionsFilter (subOpts : OptMap) : OptMap → Bool
  | [] => true
  | (k, v) :: rest =>
    match olookup subOpts k with
    | some v' => if v' = v then optionsFilter subOpts rest else false
    | none => optionsFilter subOpts rest

/-- `msg.Options["acknowledge"].(bool)` (broker.go line 74): `true` exactly
when the key is bound to the boolean `true`. -/
def ackRequested (opts : OptMap) : Bool :=
  match olookup opts "acknowledge" with
  | some (Val.vBool b) => b
  | _ => false

/-- The fanout loop of Publish (broker.go lines 52-70) over an enumeration
`l` of `br.routes[msg.Topic]`; reads the state each iteration and threads it
through unchanged. -/
def publishLoop (pub : SessionRef) (msg : PublishMsg) (pubID : ID) :
    BrokerState → List (ID × SessionRef) → BrokerState × List Send
  | b, [] => (b, [])
  | b, (id, s) :: rest =>
    if s = pub then publishLoop pub msg pubID b rest
    else
      let subOpts := (lookup2 b.options msg.topic id).getD []
      if optionsFilter subOpts msg.options then
        let r := publishLoop pub msg pubID b rest
        (r.1, (s, OutMsg.event id pubID [] msg.arguments msg.argumentsKw)
              :: r.2)
      else publishLoop pub msg pubID b rest

/-- `defaultBroker.Publish` (broker.go lines 42-77).  `pubID` is the fresh
publication ID; `l` enumerates `br.routes[msg.Topic]`. -/
def publish (b : BrokerState) (pub : SessionRef) (msg : PublishMsg)
    (pubID : ID) (l : List (ID × SessionRef)) : BrokerState × List Send :=
  let r := publishLoop pub msg pubID b l
  (r.1,
   r.2 ++
     if ackRequested msg.options then
       [(pub, OutMsg.published msg.request pubID)]
     else [])

/-! ### Router (router.go) -/

/-- `defaultRouter` state: the registered realm URIs (realm objects are
external collaborators) and the closing flag. -/
@[ext]
structure RouterState where
  realms : List URI
  closing : Bool
deriving DecidableEq

/-- `NewDefaultRouter`. -/
def routerInit : RouterState := { realms := [], closing := false }

/-- `defaultRouter.Close` (router.go lines 70-82): returns the new state, the
error (if any) and the list of realms asked to close. -/
def routerClose (r : RouterState) : RouterState × Option String × List URI :=
  if r.closing then (r, some "already closed", [])
  else ({ r with closing := true }, none, r.realms)

/-- `defaultRouter.RegisterRealm` (router.go lines 84-91): fails when the URI
is taken, otherwise records the realm. -/
def registerRealm (r : RouterState) (uri : URI) : RouterState × Option String :=
  if uri ∈ r.realms then (r, some ("realm exists: " ++ uri))
  else ({ r with realms := r.realms ++ [uri] }, none)

/-- The first message received by Accept: a HELLO or some other kind. -/
inductive InMsg
  | hello (realm : URI) (details : OptMap)
  | nonHello (t : MsgType)

/-- Peer-visible effects of one `Accept` call. -/
inductive AcceptEffect
  | sendAbort (reason : URI)
  | sendWelcome
  | closePeer
  | startSession
deriving DecidableEq

/-- `defaultRouter.Accept` (router.go lines 93-155).  `recv` is the result of
`GetMessageTimeout(client, 5*time.Second)`; `auth` is the result of the
external `realm.handleAuth`.  Accept never mutates the router state; it
returns the peer-visible effects in order and the error result. -/
def accept (r : RouterState) (recv : Except String InMsg)
    (auth : Except String Unit) : List AcceptEffect × Option String :=
  if r.closing then
    ([AcceptEffect.sendAbort ErrSystemShutdown, AcceptEffect.closePeer],
     some "Router is closing, no new connections are allowed")
  else
    match recv with
    | Except.error e => ([], some e)
    | Except.ok (InMsg.nonHello _) =>
      ([AcceptEffect.sendAbort "wamp.error.protocol_violation",
        AcceptEffect.closePeer],
       some "protocol violation: expected HELLO")
    | Except.ok (InMsg.hello realm _) =>
      if realm ∈ r.realms then
        match auth with
        | Except.error e =>
          ([AcceptEffect.sendAbort ErrAuthorizationFailed,
            AcceptEffect.closePeer], some e)
        | Except.ok _ =>
          ([AcceptEffect.sendWelcome, AcceptEffect.startSession], none)
      else
        ([AcceptEffect.sendAbort ErrNoSuchRealm, AcceptEffect.closePeer],
         some ("no such realm: " ++ realm))

/-! ### The broker invariants (spec section 3) -/

/-- The four-map consistency chain: an ID registered in `subscriptions` has
matching entries in `routes`, `options` and `sessions`, and each of the
other three maps only mentions registered IDs, consistently. -/
def ChainInv (b : BrokerState) : Prop :=
  (∀ id t, b.subscriptions.lookup id = some t →
    ∃ s, lookup2 b.routes t id = some s ∧
      (lookup2 b.options t id).isSome ∧ id ∈ sset b s) ∧
  (∀ t id, (lookup2 b.routes t id).isSome →
    b.subscriptions.lookup id = some t) ∧
  (∀ t id, (lookup2 b.options t id).isSome →
    b.subscriptions.lookup id = some t) ∧
  (∀ s id, id ∈ sset b s →
    ∃ t, b.subscriptions.lookup id = some t ∧ lookup2 b.routes t id = some s)

/-- Empty inner maps are pruned: present topics and sessions have non-empty
entries. -/
def NoEmptyInv (b : BrokerState) : Prop :=
  (∀ t r, b.routes.lookup t = some r → r ≠ ∅) ∧
  (∀ t o, b.options.lookup t = some o → o ≠ ∅) ∧
  (∀ s S, b.sessions.lookup s = some S → S ≠ ∅)

/-- Full broker invariant. -/
def Inv (b : BrokerState) : Prop := ChainInv b ∧ NoEmptyInv b

/-! ### Finmap helper lemmas -/

theorem fm_lookup_insert_ne {α : Type} {γ : Type} [DecidableEq α]
    {m : Finmap fun _ : α => γ} {a a' : α} {v : γ} (h : a' ≠ a) :
    (m.insert a v).lookup a' = m.lookup a' :=
  Finmap.lookup_insert_of_ne m h

theorem fm_erase_insert {α : Type} {γ : Type} [DecidableEq α]
    {m : Finmap fun _ : α => γ} {a : α} {v : γ} (h : a ∉ m) :
    (m.insert a v).erase a = m := by
  apply Finmap.ext_lookup
  intro x
  by_cases hx : x = a
  · subst hx
    rw [Finmap.lookup_erase, eq_comm, Finmap.lookup_eq_none]
    exact h
  · rw [Finmap.lookup_erase_ne hx, fm_lookup_insert_ne hx]

theorem fm_insert_self {α : Type} {γ : Type} [DecidableEq α]
    {m : Finmap fun _ : α => γ} {a : α} {v : γ} (h : m.lookup a = some v) :
    m.insert a v = m := by
  apply Finmap.ext_lookup
  intro x
  by_cases hx : x = a
  · subst hx
    rw [Finmap.lookup_insert, h]
  · rw [fm_lookup_insert_ne hx]

theorem fm_erase_not_mem {α : Type} {γ : Type} [DecidableEq α]
    {m : Finmap fun _ : α => γ} {a : α} (h : a ∉ m) : m.erase a = m := by
  apply Finmap.ext_lookup
  intro x
  by_cases hx : x = a
  · subst hx
    rw [Finmap.lookup_erase, eq_comm, Finmap.lookup_eq_none]
    exact h
  · rw [Finmap.lookup_erase_ne hx]

theorem fm_mem_ne_empty {α : Type} {γ : Type}
    {m : Finmap fun _ : α => γ} {a : α} (h : a ∈ m) : m ≠ ∅ := by
  intro he
  rw [he] at h
  exact Finmap.not_mem_empty h

theorem fm_lookup_erase_all_ne {α : Type} {γ : Type} [DecidableEq α]
    {m : Finmap fun _ : α => γ} {a x : α} (h : m.erase a = ∅) (hx : x ≠ a) :
    m.lookup x = none := by
  have := Finmap.lookup_erase_ne (s := m) hx
  rw [h] at this
  rw [← this, Finmap.lookup_empty]

/-! ### Characterisations of the state updates -/

theorem subscribe_subs_at (b : BrokerState) (sub : SessionRef)
    (msg : SubscribeMsg) (id : ID) :
    (subscribe b sub msg id).1.subscriptions.lookup id = some msg.topic := by
  simp [subscribe, Finmap.lookup_insert]

theorem subscribe_subs_ne (b : BrokerState) (sub : SessionRef)
    (msg : SubscribeMsg) (id : ID) {id' : ID} (h : id' ≠ id) :
    (subscribe b sub msg id).1.subscriptions.lookup id' =
      b.subscriptions.lookup id' := by
  simp only [subscribe]
  exact fm_lookup_insert_ne h

theorem subscribe_routes_at (b : BrokerState) (sub : SessionRef)
    (msg : SubscribeMsg) (id : ID) :
    lookup2 (subscribe b sub msg id).1.routes msg.topic id = some sub := by
  simp [subscribe, lookup2, Finmap.lookup_insert]

theorem subscribe_routes_ne_id (b : BrokerState) (sub : SessionRef)
    (msg : SubscribeMsg) (id : ID) {t' : URI} {id' : ID} (h : id' ≠ id) :
    lookup2 (subscribe b sub msg id).1.routes t' id' =
      lookup2 b.routes t' id' := by
  simp only [subscribe, lookup2]
  by_cases ht : t' = msg.topic
  · rw [ht, Finmap.lookup_insert]
    rcases hr : b.routes.lookup msg.topic with _ | R
    · simp [hr, fm_lookup_insert_ne h, Finmap.lookup_empty]
    · simp [hr, fm_lookup_insert_ne h]
  · rw [fm_lookup_insert_ne ht]

theorem subscribe_routes_ne_t (b : BrokerState) (sub : SessionRef)
    (msg : SubscribeMsg) (id : ID) {t' : URI} {id' : ID}
    (h : t' ≠ msg.topic) :
    lookup2 (subscribe b sub msg id).1.routes t' id' =
      lookup2 b.routes t' id' := by
  simp only [subscribe, lookup2]
  rw [fm_lookup_insert_ne h]

theorem subscribe_options_at (b : BrokerState) (sub : SessionRef)
    (msg : SubscribeMsg) (id : ID) :
    lookup2 (subscribe b sub msg id).1.options msg.topic id =
      some msg.options := by
  simp [subscribe, lookup2, Finmap.lookup_insert]

theorem subscribe_options_ne_id (b : BrokerState) (sub : SessionRef)
    (msg : SubscribeMsg) (id : ID) {t' : URI} {id' : ID} (h : id' ≠ id) :
    lookup2 (subscribe b sub msg id).1.options t' id' =
      lookup2 b.options t' id' := by
  simp only [subscribe, lookup2]
  by_cases ht : t' = msg.topic
  · rw [ht, Finmap.lookup_insert]
    rcases hr : b.options.lookup msg.topic with _ | R
    · simp [hr, fm_lookup_insert_ne h, Finmap.lookup_empty]
    · simp [hr, fm_lookup_insert_ne h]
  · rw [fm_lookup_insert_ne ht]

theorem subscribe_options_ne_t (b : BrokerState) (sub : SessionRef)
    (msg : SubscribeMsg) (id : ID) {t' : URI} {id' : ID}
    (h : t' ≠ msg.topic) :
    lookup2 (subscribe b sub msg id).1.options t' id' =
      lookup2 b.options t' id' := by
  simp only [subscribe, lookup2]
  rw [fm_lookup_insert_ne h]

theorem subscribe_sset_at (b : BrokerState) (sub : SessionRef)
    (msg : SubscribeMsg) (id : ID) :
    sset (subscribe b sub msg id).1 sub = insert id (sset b sub) := by
  simp [subscribe, sset, Finmap.lookup_insert]

theorem subscribe_sset_ne (b : BrokerState) (sub : SessionRef)
    (msg : SubscribeMsg) (id : ID) {s' : SessionRef} (h : s' ≠ sub) :
    sset (subscribe b sub msg id).1 s' = sset b s' := by
  simp only [subscribe, sset]
  rw [fm_lookup_insert_ne h]

theorem eraseClean_lookup2 {γ : Type} [DecidableEq γ]
    (m : Finmap fun _ : URI => Finmap fun _ : ID => γ) (t : URI) (id : ID)
    (t' : URI) (id' : ID) :
    lookup2 (eraseClean m t id) t' id' =
      if t' = t ∧ id' = id then none else lookup2 m t' id' := by
  rcases h : m.lookup t with _ | r
  · have hres : eraseClean m t id = m := by
      simp [eraseClean, h]
    rw [hres]
    by_cases hc : t' = t ∧ id' = id
    · obtain ⟨h1, h2⟩ := hc
      subst h1; subst h2
      rw [if_pos ⟨rfl, rfl⟩]
      simp [lookup2, h]
    · rw [if_neg hc]
  · by_cases hid : id ∈ r
    · by_cases he : r.erase id = ∅
      · have hres : eraseClean m t id = m.erase t := by
          simp [eraseClean, h, hid, he]
        rw [hres]
        by_cases ht : t' = t
        · subst ht
          have hL : lookup2 (m.erase t') t' id' = none := by
            simp only [lookup2, Finmap.lookup_erase]
            rfl
          rw [hL]
          by_cases hi : id' = id
          · rw [if_pos ⟨rfl, hi⟩]
          · rw [if_neg fun hc => hi hc.2]
            simp only [lookup2, h]
            exact (fm_lookup_erase_all_ne he hi).symm
        · rw [if_neg fun hc => ht hc.1]
          simp only [lookup2, Finmap.lookup_erase_ne ht]
      · have hres : eraseClean m t id = m.insert t (r.erase id) := by
          simp [eraseClean, h, hid, he]
        rw [hres]
        by_cases ht : t' = t
        · subst ht
          simp only [lookup2, Finmap.lookup_insert, h]
          by_cases hi : id' = id
          · subst hi
            simp [Finmap.lookup_erase]
          · rw [if_neg fun hc => hi hc.2]
            exact Finmap.lookup_erase_ne hi
        · rw [if_neg fun hc => ht hc.1]
          simp only [lookup2, fm_lookup_insert_ne ht]
    · have hres : eraseClean m t id = m := by
        simp [eraseClean, h, hid]
      rw [hres]
      by_cases hc : t' = t ∧ id' = id
      · obtain ⟨h1, h2⟩ := hc
        subst h1; subst h2
        rw [if_pos ⟨rfl, rfl⟩]
        simp [lookup2, h, Finmap.lookup_eq_none.mpr hid]
      · rw [if_neg hc]

theorem eraseSess_mem (m : Finmap fun _ : SessionRef => Finset ID)
    (s : SessionRef) (id : ID) (s' : SessionRef) (id' : ID) :
    id' ∈ ((eraseSess m s id).lookup s').getD ∅ ↔
      ¬(s' = s ∧ id' = id) ∧ id' ∈ (m.lookup s').getD ∅ := by
  rcases h : m.lookup s with _ | S
  · have hres : eraseSess m s id = m := by
      simp [eraseSess, h]
    rw [hres]
    by_cases hc : s' = s ∧ id' = id
    · obtain ⟨h1, h2⟩ := hc
      subst h1; subst h2
      simp [h]
    · simp [hc]
  · by_cases hid : id ∈ S
    · by_cases he : S.erase id = ∅
      · have hres : eraseSess m s id = m.erase s := by
          simp [eraseSess, h, hid, he]
        rw [hres]
        by_cases hs : s' = s
        · subst hs
          rw [Finmap.lookup_erase, h]
          simp only [Option.getD_none, Option.getD_some, Finset.not_mem_empty,
            false_iff]
          intro hcon
          obtain ⟨hne, hmem⟩ := hcon
          by_cases hi : id' = id
          · exact hne (by simp [hi])
          · have : id' ∈ S.erase id := Finset.mem_erase.mpr ⟨hi, hmem⟩
            rw [he] at this
            exact Finset.not_mem_empty _ this
        · rw [Finmap.lookup_erase_ne hs]
          simp [hs]
      · have hres : eraseSess m s id = m.insert s (S.erase id) := by
          simp [eraseSess, h, hid, he]
        rw [hres]
        by_cases hs : s' = s
        · subst hs
          rw [Finmap.lookup_insert, h]
          simp only [Option.getD_some, Finset.mem_erase]
          constructor
          · intro hcon
            exact ⟨fun hc => hcon.1 hc.2, hcon.2⟩
          · intro hcon
            exact ⟨fun hc => hcon.1 (by simp [hc]), hcon.2⟩
        · rw [fm_lookup_insert_ne hs]
          simp [hs]
    · have hres : eraseSess m s id = m := by
        simp [eraseSess, h, hid]
      rw [hres]
      by_cases hc : s' = s ∧ id' = id
      · obtain ⟨h1, h2⟩ := hc
        subst h1; subst h2
        simp [h, hid]
      · simp [hc]

theorem eraseSess_lookup_ne (m : Finmap fun _ : SessionRef => Finset ID)
    (s : SessionRef) (id : ID) {s' : SessionRef} (hs : s' ≠ s) :
    (eraseSess m s id).lookup s' = m.lookup s' := by
  rcases h : m.lookup s with _ | S
  · simp [eraseSess, h]
  · by_cases hid : id ∈ S
    · by_cases he : S.erase id = ∅
      · have hres : eraseSess m s id = m.erase s := by
          simp [eraseSess, h, hid, he]
        rw [hres, Finmap.lookup_erase_ne hs]
      · have hres : eraseSess m s id = m.insert s (S.erase id) := by
          simp [eraseSess, h, hid, he]
        rw [hres, fm_lookup_insert_ne hs]
    · have hres : eraseSess m s id = m := by
        simp [eraseSess, h, hid]
      rw [hres]

theorem eraseClean_ne_empty {γ : Type} [DecidableEq γ]
    {m : Finmap fun _ : URI => Finmap fun _ : ID => γ} {t : URI} {id : ID}
    (hNE : ∀ t' r, m.lookup t' = some r → r ≠ ∅) :
    ∀ t' r, (eraseClean m t id).lookup t' = some r → r ≠ ∅ := by
  intro t' r
  rcases h : m.lookup t with _ | r0
  · have hres : eraseClean m t id = m := by
      simp [eraseClean, h]
    rw [hres]
    exact hNE t' r
  · by_cases hid : id ∈ r0
    · by_cases he : r0.erase id = ∅
      · have hres : eraseClean m t id = m.erase t := by
          simp [eraseClean, h, hid, he]
        rw [hres]
        intro hl
        by_cases ht : t' = t
        · subst ht
          rw [Finmap.lookup_erase] at hl
          exact absurd hl (by simp)
        · rw [Finmap.lookup_erase_ne ht] at hl
          exact hNE t' r hl
      · have hres : eraseClean m t id = m.insert t (r0.erase id) := by
          simp [eraseClean, h, hid, he]
        rw [hres]
        intro hl
        by_cases ht : t' = t
        · subst ht
          rw [Finmap.lookup_insert] at hl
          cases hl
          exact he
        · rw [fm_lookup_insert_ne ht] at hl
          exact hNE t' r hl
    · have hres : eraseClean m t id = m := by
        simp [eraseClean, h, hid]
      rw [hres]
      exact hNE t' r

theorem eraseSess_ne_empty {m : Finmap fun _ : SessionRef => Finset ID}
    {s : SessionRef} {id : ID}
    (hNE : ∀ s' S, m.lookup s' = some S → S ≠ ∅) :
    ∀ s' S, (eraseSess m s id).lookup s' = some S → S ≠ ∅ := by
  intro s' S
  rcases h : m.lookup s with _ | S0
  · have hres : eraseSess m s id = m := by
      simp [eraseSess, h]
    rw [hres]
    exact hNE s' S
  · by_cases hid : id ∈ S0
    · by_cases he : S0.erase id = ∅
      · have hres : eraseSess m s id = m.erase s := by
          simp [eraseSess, h, hid, he]
        rw [hres]
        intro hl
        by_cases hs : s' = s
        · subst hs
          rw [Finmap.lookup_erase] at hl
          exact absurd hl (by simp)
        · rw [Finmap.lookup_erase_ne hs] at hl
          exact hNE s' S hl
      · have hres : eraseSess m s id = m.insert s (S0.erase id) := by
          simp [eraseSess, h, hid, he]
        rw [hres]
        intro hl
        by_cases hs : s' = s
        · subst hs
          rw [Finmap.lookup_insert] at hl
          cases hl
          exact he
        · rw [fm_lookup_insert_ne hs] at hl
          exact hNE s' S hl
    · have hres : eraseSess m s id = m := by
        simp [eraseSess, h, hid]
      rw [hres]
      exact hNE s' S

theorem unsubscribe_eq_none (b : BrokerState) (sub : SessionRef)
    (msg : UnsubscribeMsg)
    (h : b.subscriptions.lookup msg.subscription = none) :
    unsubscribe b sub msg =
      (b, [(sub, OutMsg.errorMsg MsgType.UNSUBSCRIBE msg.request
              ErrNoSuchSubscription)]) := by
  simp [unsubscribe, h]

theorem unsubscribe_eq_some (b : BrokerState) (sub : SessionRef)
    (msg : UnsubscribeMsg) (topic : URI)
    (h : b.subscriptions.lookup msg.subscription = some topic) :
    unsubscribe b sub msg =
      ({ subscriptions := b.subscriptions.erase msg.subscription
         routes := eraseClean b.routes topic msg.subscription
         options := eraseClean b.options topic msg.subscription
         sessions := eraseSess b.sessions sub msg.subscription },
       [(sub, OutMsg.unsubscribed msg.request)]) := by
  simp [unsubscribe, h]

theorem cleanupID_eq_none (b : BrokerState) (id : ID)
    (h : b.subscriptions.lookup id = none) : cleanupID b id = b := by
  simp [cleanupID, h]

theorem cleanupID_eq_some (b : BrokerState) (id : ID) (topic : URI)
    (h : b.subscriptions.lookup id = some topic) :
    cleanupID b id =
      { b with
        subscriptions := b.subscriptions.erase id
        routes := eraseClean b.routes topic id
        options := eraseClean b.options topic id } := by
  simp [cleanupID, h]

/-! ### Invariant preservation -/

theorem Inv_brokerInit : Inv brokerInit := by
  refine ⟨⟨?_, ?_, ?_, ?_⟩, ?_, ?_, ?_⟩ <;>
    simp [brokerInit, lookup2, sset, Finmap.lookup_empty]

theorem subscribe_preserves_Inv (b : BrokerState) (sub : SessionRef)
    (msg : SubscribeMsg) (id : ID) (hInv : Inv b)
    (hfresh : b.subscriptions.lookup id = none) :
    Inv (subscribe b sub msg id).1 := by
  obtain ⟨⟨hC1, hC2, hC3, hC4⟩, hNR, hNO, hNS⟩ := hInv
  refine ⟨⟨?_, ?_, ?_, ?_⟩, ?_, ?_, ?_⟩
  · intro id' t' hl
    by_cases hi : id' = id
    · subst hi
      rw [subscribe_subs_at] at hl
      injection hl with h1
      subst h1
      refine ⟨sub, subscribe_routes_at b sub msg id', ?_, ?_⟩
      · rw [subscribe_options_at]
        rfl
      · rw [subscribe_sset_at]
        exact Finset.mem_insert_self _ _
    · rw [subscribe_subs_ne b sub msg id hi] at hl
      obtain ⟨s, hr, ho, hs⟩ := hC1 id' t' hl
      refine ⟨s, ?_, ?_, ?_⟩
      · rw [subscribe_routes_ne_id b sub msg id hi]
        exact hr
      · rw [subscribe_options_ne_id b sub msg id hi]
        exact ho
      · by_cases hss : s = sub
        · subst hss
          rw [subscribe_sset_at]
          exact Finset.mem_insert_of_mem hs
        · rw [subscribe_sset_ne b sub msg id hss]
          exact hs
  · intro t' id' hl
    by_cases hi : id' = id
    · subst hi
      by_cases ht : t' = msg.topic
      · subst ht
        exact subscribe_subs_at b sub msg id'
      · rw [subscribe_routes_ne_t b sub msg id' ht] at hl
        have hcon := hC2 t' id' ((Option.isSome_iff_exists.mp hl).choose_spec
          ▸ rfl)
        rw [hfresh] at hcon
        exact Option.noConfusion hcon
    · rw [subscribe_routes_ne_id b sub msg id hi] at hl
      rw [subscribe_subs_ne b sub msg id hi]
      exact hC2 t' id' hl
  · intro t' id' hl
    by_cases hi : id' = id
    · subst hi
      by_cases ht : t' = msg.topic
      · subst ht
        exact subscribe_subs_at b sub msg id'
      · rw [subscribe_options_ne_t b sub msg id' ht] at hl
        have hcon := hC3 t' id' ((Option.isSome_iff_exists.mp hl).choose_spec
          ▸ rfl)
        rw [hfresh] at hcon
        exact Option.noConfusion hcon
    · rw [subscribe_options_ne_id b sub msg id hi] at hl
      rw [subscribe_subs_ne b sub msg id hi]
      exact hC3 t' id' hl
  · intro s' id' hmem
    by_cases hss : s' = sub
    · subst hss
      rw [subscribe_sset_at] at hmem
      rcases Finset.mem_insert.mp hmem with hi | hmem'
      · subst hi
        exact ⟨msg.topic, subscribe_subs_at b s' msg id',
          subscribe_routes_at b s' msg id'⟩
      · by_cases hi : id' = id
        · subst hi
          obtain ⟨t, hts, _⟩ := hC4 s' id' hmem'
          rw [hfresh] at hts
          exact Option.noConfusion hts
        · obtain ⟨t, hts, htr⟩ := hC4 s' id' hmem'
          refine ⟨t, ?_, ?_⟩
          · rw [subscribe_subs_ne b s' msg id hi]
            exact hts
          · rw [subscribe_routes_ne_id b s' msg id hi]
            exact htr
    · rw [subscribe_sset_ne b sub msg id hss] at hmem
      by_cases hi : id' = id
      · subst hi
        obtain ⟨t, hts, _⟩ := hC4 s' id' hmem
        rw [hfresh] at hts
        exact Option.noConfusion hts
      · obtain ⟨t, hts, htr⟩ := hC4 s' id' hmem
        refine ⟨t, ?_, ?_⟩
        · rw [subscribe_subs_ne b sub msg id hi]
          exact hts
        · rw [subscribe_routes_ne_id b sub msg id hi]
          exact htr
  · intro t' r hl
    by_cases ht : t' = msg.topic
    · subst ht
      simp only [subscribe] at hl
      rw [Finmap.lookup_insert] at hl
      injection hl with h1
      subst h1
      exact fm_mem_ne_empty (Finmap.mem_insert.mpr (Or.inl rfl))
    · simp only [subscribe] at hl
      rw [fm_lookup_insert_ne ht] at hl
      exact hNR t' r hl
  · intro t' o hl
    by_cases ht : t' = msg.topic
    · subst ht
      simp only [subscribe] at hl
      rw [Finmap.lookup_insert] at hl
      injection hl with h1
      subst h1
      exact fm_mem_ne_empty (Finmap.mem_insert.mpr (Or.inl rfl))
    · simp only [subscribe] at hl
      rw [fm_lookup_insert_ne ht] at hl
      exact hNO t' o hl
  · intro s' S hl
    by_cases hss : s' = sub
    · subst hss
      simp only [subscribe] at hl
      rw [Finmap.lookup_insert] at hl
      injection hl with h1
      subst h1
      exact Finset.ne_empty_of_mem (Finset.mem_insert_self _ _)
    · simp only [subscribe] at hl
      rw [fm_lookup_insert_ne hss] at hl
      exact hNS s' S hl

theorem unsubscribe_preserves_Inv (b : BrokerState) (sub : SessionRef)
    (msg : UnsubscribeMsg) (hInv : Inv b)
    (howner : ∀ t, b.subscriptions.lookup msg.subscription = some t →
      lookup2 b.routes t msg.subscription = some sub) :
    Inv (unsubscribe b sub msg).1 := by
  obtain ⟨⟨hC1, hC2, hC3, hC4⟩, hNR, hNO, hNS⟩ := hInv
  rcases h : b.subscriptions.lookup msg.subscription with _ | topic
  · rw [unsubscribe_eq_none b sub msg h]
    exact ⟨⟨hC1, hC2, hC3, hC4⟩, hNR, hNO, hNS⟩
  · have howner' := howner topic h
    rw [unsubscribe_eq_some b sub msg topic h]
    refine ⟨⟨?_, ?_, ?_, ?_⟩, ?_, ?_, ?_⟩
    · intro id' t' hl
      have hi : id' ≠ msg.subscription := by
        intro he
        rw [he, Finmap.lookup_erase] at hl
        exact Option.noConfusion hl
      rw [Finmap.lookup_erase_ne hi] at hl
      obtain ⟨s, hr, ho, hs⟩ := hC1 id' t' hl
      refine ⟨s, ?_, ?_, ?_⟩
      · rw [eraseClean_lookup2, if_neg fun hc => hi hc.2]
        exact hr
      · rw [eraseClean_lookup2, if_neg fun hc => hi hc.2]
        exact ho
      · exact (eraseSess_mem b.sessions sub msg.subscription s id').mpr
          ⟨fun hc => hi hc.2, hs⟩
    · intro t' id' hl
      rw [eraseClean_lookup2] at hl
      by_cases hc : t' = topic ∧ id' = msg.subscription
      · rw [if_pos hc] at hl
        exact absurd hl (by simp)
      · rw [if_neg hc] at hl
        have hts := hC2 t' id' hl
        have hi : id' ≠ msg.subscription := by
          intro he
          rw [he] at hts
          rw [h] at hts
          injection hts with h1
          exact hc ⟨h1.symm, he⟩
        rw [Finmap.lookup_erase_ne hi]
        exact hts
    · intro t' id' hl
      rw [eraseClean_lookup2] at hl
      by_cases hc : t' = topic ∧ id' = msg.subscription
      · rw [if_pos hc] at hl
        exact absurd hl (by simp)
      · rw [if_neg hc] at hl
        have hts := hC3 t' id' hl
        have hi : id' ≠ msg.subscription := by
          intro he
          rw [he] at hts
          rw [h] at hts
          injection hts with h1
          exact hc ⟨h1.symm, he⟩
        rw [Finmap.lookup_erase_ne hi]
        exact hts
    · intro s' id' hmem
      obtain ⟨hnc, hmem'⟩ :=
        (eraseSess_mem b.sessions sub msg.subscription s' id').mp hmem
      obtain ⟨t'', hts, htr⟩ := hC4 s' id' hmem'
      have hi : id' ≠ msg.subscription := by
        intro he
        rw [he] at hts htr
        rw [h] at hts
        injection hts with h1
        subst h1
        rw [howner'] at htr
        injection htr with h2
        exact hnc ⟨h2.symm, he⟩
      refine ⟨t'', ?_, ?_⟩
      · rw [Finmap.lookup_erase_ne hi]
        exact hts
      · rw [eraseClean_lookup2, if_neg fun hc => hi hc.2]
        exact htr
    · exact eraseClean_ne_empty hNR
    · exact eraseClean_ne_empty hNO
    · exact eraseSess_ne_empty hNS

/-- Intermediate invariant of the RemoveSubscriber loop: `rest` is the part
of `sessions[sub]` not yet processed; IDs owned by `sub` that are still
registered are exactly those still to be processed; other sessions (and the
pruning discipline) are untouched. -/
def RemInv (sub : SessionRef) (rest : List ID) (b : BrokerState) : Prop :=
  (∀ id t, b.subscriptions.lookup id = some t →
    ∃ s, lookup2 b.routes t id = some s ∧ (lookup2 b.options t id).isSome ∧
      id ∈ sset b s ∧ (s = sub → id ∈ rest)) ∧
  (∀ t id, (lookup2 b.routes t id).isSome →
    b.subscriptions.lookup id = some t) ∧
  (∀ t id, (lookup2 b.options t id).isSome →
    b.subscriptions.lookup id = some t) ∧
  (∀ s id, id ∈ sset b s → s = sub ∨
    ∃ t, b.subscriptions.lookup id = some t ∧ lookup2 b.routes t id = some s) ∧
  (∀ id, id ∈ rest → ∀ t, b.subscriptions.lookup id = some t →
    lookup2 b.routes t id = some sub) ∧
  NoEmptyInv b

theorem RemInv_init (b : BrokerState) (sub : SessionRef) (l : List ID)
    (hInv : Inv b) (henum : ∀ id, id ∈ l ↔ id ∈ sset b sub) :
    RemInv sub l b := by
  obtain ⟨⟨hC1, hC2, hC3, hC4⟩, hNE⟩ := hInv
  refine ⟨?_, hC2, hC3, ?_, ?_, hNE⟩
  · intro id t hl
    obtain ⟨s, hr, ho, hs⟩ := hC1 id t hl
    exact ⟨s, hr, ho, hs, fun he => (henum id).mpr (he ▸ hs)⟩
  · intro s id hmem
    exact Or.inr (hC4 s id hmem)
  · intro id hidl t hts
    obtain ⟨t0, hts0, htr0⟩ := hC4 sub id ((henum id).mp hidl)
    rw [hts] at hts0
    injection hts0 with h1
    rw [← h1] at htr0
    exact htr0

theorem RemInv_step (b : BrokerState) (sub : SessionRef) (id0 : ID)
    (rest : List ID) (hR : RemInv sub (id0 :: rest) b) :
    RemInv sub rest (cleanupID b id0) := by
  obtain ⟨hC1, hC2, hC3, hC4, hC5, hNR, hNO, hNS⟩ := hR
  rcases h : b.subscriptions.lookup id0 with _ | t0
  · rw [cleanupID_eq_none b id0 h]
    refine ⟨?_, hC2, hC3, hC4, ?_, hNR, hNO, hNS⟩
    · intro id t hl
      obtain ⟨s, hr, ho, hs, himp⟩ := hC1 id t hl
      refine ⟨s, hr, ho, hs, fun he => ?_⟩
      have hne : id ≠ id0 := by
        intro hc
        rw [hc, h] at hl
        exact Option.noConfusion hl
      rcases List.mem_cons.mp (himp he) with hc | hc
      · exact absurd hc hne
      · exact hc
    · intro id hidl t hts
      exact hC5 id (List.mem_cons_of_mem id0 hidl) t hts
  · rw [cleanupID_eq_some b id0 t0 h]
    refine ⟨?_, ?_, ?_, ?_, ?_, eraseClean_ne_empty hNR,
      eraseClean_ne_empty hNO, hNS⟩
    · intro id t hl
      have hne : id ≠ id0 := by
        intro hc
        rw [hc, Finmap.lookup_erase] at hl
        exact Option.noConfusion hl
      rw [Finmap.lookup_erase_ne hne] at hl
      obtain ⟨s, hr, ho, hs, himp⟩ := hC1 id t hl
      refine ⟨s, ?_, ?_, hs, fun he => ?_⟩
      · rw [eraseClean_lookup2, if_neg fun hc => hne hc.2]
        exact hr
      · rw [eraseClean_lookup2, if_neg fun hc => hne hc.2]
        exact ho
      · rcases List.mem_cons.mp (himp he) with hc | hc
        · exact absurd hc hne
        · exact hc
    · intro t id hl
      rw [eraseClean_lookup2] at hl
      by_cases hc : t = t0 ∧ id = id0
      · rw [if_pos hc] at hl
        exact absurd hl (by simp)
      · rw [if_neg hc] at hl
        have hts := hC2 t id hl
        have hne : id ≠ id0 := by
          intro he
          rw [he, h] at hts
          injection hts with h1
          exact hc ⟨h1.symm, he⟩
        rw [Finmap.lookup_erase_ne hne]
        exact hts
    · intro t id hl
      rw [eraseClean_lookup2] at hl
      by_cases hc : t = t0 ∧ id = id0
      · rw [if_pos hc] at hl
        exact absurd hl (by simp)
      · rw [if_neg hc] at hl
        have hts := hC3 t id hl
        have hne : id ≠ id0 := by
          intro he
          rw [he, h] at hts
          injection hts with h1
          exact hc ⟨h1.symm, he⟩
        rw [Finmap.lookup_erase_ne hne]
        exact hts
    · intro s id hmem
      by_cases hssub : s = sub
      · exact Or.inl hssub
      · rcases hC4 s id hmem with he | ⟨t'', hts, htr⟩
        · exact Or.inl he
        · have hne : id ≠ id0 := by
            intro he2
            rw [he2] at hts htr
            rw [h] at hts
            injection hts with h1
            subst h1
            have hsub0 := hC5 id0 (List.mem_cons_self id0 rest) t0 h
            rw [htr] at hsub0
            injection hsub0 with h2
            exact hssub h2
          refine Or.inr ⟨t'', ?_, ?_⟩
          · rw [Finmap.lookup_erase_ne hne]
            exact hts
          · rw [eraseClean_lookup2, if_neg fun hc => hne hc.2]
            exact htr
    · intro id hidl t hts
      have hne : id ≠ id0 := by
        intro he
        rw [he, Finmap.lookup_erase] at hts
        exact Option.noConfusion hts
      rw [Finmap.lookup_erase_ne hne] at hts
      have := hC5 id (List.mem_cons_of_mem id0 hidl) t hts
      rw [eraseClean_lookup2, if_neg fun hc => hne hc.2]
      exact this

theorem RemInv_foldl (sub : SessionRef) (l : List ID) (b : BrokerState)
    (hR : RemInv sub l b) : RemInv sub [] (l.foldl cleanupID b) := by
  induction l generalizing b with
  | nil => exact hR
  | cons id0 rest ih => exact ih (cleanupID b id0) (RemInv_step b sub id0 rest hR)

theorem RemInv_final (sub : SessionRef) (bf : BrokerState)
    (hR : RemInv sub [] bf) :
    Inv { bf with sessions := bf.sessions.erase sub } := by
  obtain ⟨hC1, hC2, hC3, hC4, _, hNR, hNO, hNS⟩ := hR
  refine ⟨⟨?_, hC2, hC3, ?_⟩, hNR, hNO, ?_⟩
  · intro id t hl
    obtain ⟨s, hr, ho, hs, himp⟩ := hC1 id t hl
    have hssub : s ≠ sub := fun he => absurd (himp he) (List.not_mem_nil id)
    refine ⟨s, hr, ho, ?_⟩
    simp only [sset]
    rw [Finmap.lookup_erase_ne hssub]
    exact hs
  · intro s id hmem
    simp only [sset] at hmem
    by_cases hssub : s = sub
    · rw [hssub, Finmap.lookup_erase] at hmem
      exact absurd hmem (by simp)
    · rw [Finmap.lookup_erase_ne hssub] at hmem
      rcases hC4 s id hmem with he | hex
      · exact absurd he hssub
      · exact hex
  · intro s S hl
    by_cases hssub : s = sub
    · rw [hssub, Finmap.lookup_erase] at hl
      exact Option.noConfusion hl
    · rw [Finmap.lookup_erase_ne hssub] at hl
      exact hNS s S hl

theorem removeSubscriber_preserves_Inv (b : BrokerState) (sub : SessionRef)
    (l : List ID) (hInv : Inv b)
    (henum : ∀ id, id ∈ l ↔ id ∈ sset b sub) :
    Inv (removeSubscriber b sub l) :=
  RemInv_final sub (l.foldl cleanupID b)
    (RemInv_foldl sub l b (RemInv_init b sub l hInv henum))

theorem cleanupID_subs_self (b : BrokerState) (id : ID) :
    (cleanupID b id).subscriptions.lookup id = none := by
  rcases h : b.subscriptions.lookup id with _ | t
  · rw [cleanupID_eq_none b id h]
    exact h
  · rw [cleanupID_eq_some b id t h]
    exact Finmap.lookup_erase _ _

theorem cleanupID_subs_mono (b : BrokerState) (j id : ID)
    (h : b.subscriptions.lookup id = none) :
    (cleanupID b j).subscriptions.lookup id = none := by
  rcases hj : b.subscriptions.lookup j with _ | t
  · rw [cleanupID_eq_none b j hj]
    exact h
  · rw [cleanupID_eq_some b j t hj]
    by_cases hij : id = j
    · rw [hij]
      exact Finmap.lookup_erase _ _
    · rw [Finmap.lookup_erase_ne hij]
      exact h

theorem foldl_cleanup_subs_mono (l : List ID) (b : BrokerState) (id : ID)
    (h : b.subscriptions.lookup id = none) :
    (l.foldl cleanupID b).subscriptions.lookup id = none := by
  induction l generalizing b with
  | nil => exact h
  | cons j rest ih => exact ih (cleanupID b j) (cleanupID_subs_mono b j id h)

theorem foldl_cleanup_subs_none (l : List ID) (b : BrokerState) (id : ID)
    (hid : id ∈ l) : (l.foldl cleanupID b).subscriptions.lookup id = none := by
  induction l generalizing b with
  | nil => exact absurd hid (List.not_mem_nil id)
  | cons j rest ih =>
    rcases List.mem_cons.mp hid with he | hm
    · rw [he]
      exact foldl_cleanup_subs_mono rest (cleanupID b j) j
        (cleanupID_subs_self b j)
    · exact ih (cleanupID b j) hm

/-! ### Sequences of broker operations -/

/-- A broker operation together with its externally supplied data (the fresh
ID minted by `NewID()` for Subscribe, the map iteration order for
RemoveSubscriber). -/
inductive BOp
  | subOp (s : SessionRef) (msg : SubscribeMsg) (id : ID)
  | unsubOp (s : SessionRef) (msg : UnsubscribeMsg)
  | remOp (s : SessionRef) (l : List ID)

/-- The state transformer of one operation (the sends are dropped). -/
def stepOp (b : BrokerState) : BOp → BrokerState
  | BOp.subOp s msg id => (subscribe b s msg id).1
  | BOp.unsubOp s msg => (unsubscribe b s msg).1
  | BOp.remOp s l => removeSubscriber b s l

/-- Run a list of operations left to right. -/
def runOps (b : BrokerState) (ops : List BOp) : BrokerState :=
  ops.foldl stepOp b

/-- Environmental well-formedness of one operation at state `b`: a Subscribe
is given an ID not currently registered (the spec requires subscription IDs
unique within a broker lifetime), an Unsubscribe of a registered ID is
requested by the session stored for it in `routes` (the original
subscriber), and a RemoveSubscriber iteration list enumerates exactly
`sessions[s]`. -/
def ValidOp (b : BrokerState) : BOp → Prop
  | BOp.subOp _ _ id => b.subscriptions.lookup id = none
  | BOp.unsubOp s msg =>
    ∀ t, b.subscriptions.lookup msg.subscription = some t →
      lookup2 b.routes t msg.subscription = some s
  | BOp.remOp s l => ∀ id, id ∈ l ↔ id ∈ sset b s

/-- Every operation of the sequence is well-formed at the state where it
runs. -/
inductive ValidSeq : BrokerState → List BOp → Prop
  | nil (b : BrokerState) : ValidSeq b []
  | cons (b : BrokerState) (op : BOp) (ops : List BOp) :
      ValidOp b op → ValidSeq (stepOp b op) ops → ValidSeq b (op :: ops)

theorem stepOp_preserves_Inv (b : BrokerState) (op : BOp) (hInv : Inv b)
    (hV : ValidOp b op) : Inv (stepOp b op) := by
  cases op with
  | subOp s msg id => exact subscribe_preserves_Inv b s msg id hInv hV
  | unsubOp s msg => exact unsubscribe_preserves_Inv b s msg hInv hV
  | remOp s l => exact removeSubscriber_preserves_Inv b s l hInv hV

theorem runOps_preserves_Inv (b : BrokerState) (ops : List BOp) (hInv : Inv b)
    (hV : ValidSeq b ops) : Inv (runOps b ops) := by
  induction hV with
  | nil b => exact hInv
  | cons b op ops hvo _ ih => exact ih (stepOp_preserves_Inv b op hInv hvo)

theorem ValidSeq_append_left (b : BrokerState) (ops1 ops2 : List BOp)
    (h : ValidSeq b (ops1 ++ ops2)) : ValidSeq b ops1 := by
  induction ops1 generalizing b with
  | nil => exact ValidSeq.nil b
  | cons op rest ih =>
    cases h with
    | cons _ _ _ hvo hvs => exact ValidSeq.cons _ _ _ hvo (ih _ hvs)

/-! ### Publish lemmas -/

theorem publishLoop_fst (pub : SessionRef) (msg : PublishMsg) (pubID : ID)
    (b : BrokerState) (l : List (ID × SessionRef)) :
    (publishLoop pub msg pubID b l).1 = b := by
  induction l with
  | nil => rfl
  | cons q rest ih =>
    obtain ⟨id0, s0⟩ := q
    by_cases hs : s0 = pub
    · simp only [publishLoop, if_pos hs]
      exact ih
    · simp only [publishLoop, if_neg hs]
      by_cases hf : optionsFilter ((lookup2 b.options msg.topic id0).getD [])
          msg.options = true
      · simp only [if_pos hf]
        exact ih
      · simp only [if_neg hf]
        exact ih

theorem publishLoop_all_events (pub : SessionRef) (msg : PublishMsg)
    (pubID : ID) (b : BrokerState) (l : List (ID × SessionRef)) :
    ∀ p ∈ (publishLoop pub msg pubID b l).2, ∃ id s,
      p = (s, OutMsg.event id pubID [] msg.arguments msg.argumentsKw) := by
  induction l with
  | nil =>
    intro p hp
    exact absurd hp (List.not_mem_nil p)
  | cons q rest ih =>
    obtain ⟨id0, s0⟩ := q
    intro p hp
    by_cases hs : s0 = pub
    · simp only [publishLoop, if_pos hs] at hp
      exact ih p hp
    · simp only [publishLoop, if_neg hs] at hp
      by_cases hf : optionsFilter ((lookup2 b.options msg.topic id0).getD [])
          msg.options = true
      · rw [if_pos hf] at hp
        rcases List.mem_cons.mp hp with he | hm
        · exact ⟨id0, s0, he⟩
        · exact ih p hm
      · rw [if_neg hf] at hp
        exact ih p hp

theorem publishLoop_mem (pub : SessionRef) (msg : PublishMsg) (pubID : ID)
    (b : BrokerState) (l : List (ID × SessionRef)) (id : ID)
    (s : SessionRef) :
    (s, OutMsg.event id pubID [] msg.arguments msg.argumentsKw) ∈
      (publishLoop pub msg pubID b l).2 ↔
      (id, s) ∈ l ∧ s ≠ pub ∧
        optionsFilter ((lookup2 b.options msg.topic id).getD [])
          msg.options = true := by
  induction l with
  | nil => simp [publishLoop]
  | cons q rest ih =>
    obtain ⟨id0, s0⟩ := q
    by_cases hs : s0 = pub
    · simp only [publishLoop, if_pos hs]
      rw [ih]
      constructor
      · intro hc
        exact ⟨List.mem_cons_of_mem _ hc.1, hc.2⟩
      · intro hc
        refine ⟨?_, hc.2⟩
        rcases List.mem_cons.mp hc.1 with he | hm
        · injection he with h1 h2
          subst h1; subst h2
          exact absurd hs hc.2.1
        · exact hm
    · simp only [publishLoop, if_neg hs]
      by_cases hf : optionsFilter ((lookup2 b.options msg.topic id0).getD [])
          msg.options = true
      · rw [if_pos hf]
        simp only [List.mem_cons]
        rw [ih]
        constructor
        · intro hc
          rcases hc with he | ⟨hm, hnp, hfl⟩
          · injection he with h1 h2
            injection h2 with h3
            subst h3
            subst h1
            exact ⟨Or.inl rfl, hs, hf⟩
          · exact ⟨Or.inr hm, hnp, hfl⟩
        · intro ⟨hm, hnp, hfl⟩
          rcases hm with he | hm
          · injection he with h1 h2
            subst h1; subst h2
            exact Or.inl rfl
          · exact Or.inr ⟨hm, hnp, hfl⟩
      · rw [if_neg hf]
        rw [ih]
        constructor
        · intro hc
          exact ⟨List.mem_cons_of_mem _ hc.1, hc.2⟩
        · intro ⟨hm, hnp, hfl⟩
          rcases List.mem_cons.mp hm with he | hm'
          · injection he with h1 h2
            subst h1; subst h2
            exact absurd hfl hf
          · exact ⟨hm', hnp, hfl⟩

theorem optionsFilter_eq_true_iff (subOpts pubOpts : OptMap) :
    optionsFilter subOpts pubOpts = true ↔
      ∀ k v, (k, v) ∈ pubOpts → ∀ v', olookup subOpts k = some v' →
        v' = v := by
  induction pubOpts with
  | nil => simp [optionsFilter]
  | cons kv rest ih =>
    obtain ⟨k, v⟩ := kv
    rcases hs : olookup subOpts k with _ | w
    · simp only [optionsFilter, hs]
      rw [ih]
      constructor
      · intro hall k0 v0 hmem v0' hl
        rcases List.mem_cons.mp hmem with he | hm
        · injection he with h1 h2
          subst h1
          rw [hs] at hl
          exact Option.noConfusion hl
        · exact hall k0 v0 hm v0' hl
      · intro hall k0 v0 hm v0' hl
        exact hall k0 v0 (List.mem_cons_of_mem _ hm) v0' hl
    · simp only [optionsFilter, hs]
      by_cases hv : w = v
      · rw [if_pos hv, ih]
        constructor
        · intro hall k0 v0 hmem v0' hl
          rcases List.mem_cons.mp hmem with he | hm
          · injection he with h1 h2
            subst h1; subst h2
            rw [hs] at hl
            injection hl with h3
            rw [← h3]
            exact hv
          · exact hall k0 v0 hm v0' hl
        · intro hall k0 v0 hm v0' hl
          exact hall k0 v0 (List.mem_cons_of_mem _ hm) v0' hl
      · rw [if_neg hv]
        constructor
        · intro hc
          exact Bool.noConfusion hc
        · intro hall
          exact absurd (hall k v (List.mem_cons_self _ _) w hs) hv

theorem olookup_eq_some_iff_mem (m : OptMap)
    (hnd : (m.map Prod.fst).Nodup) (k : String) (v : Val) :
    olookup m k = some v ↔ (k, v) ∈ m := by
  induction m with
  | nil => simp [olookup]
  | cons kv rest ih =>
    obtain ⟨k0, v0⟩ := kv
    rw [List.map_cons, List.nodup_cons] at hnd
    by_cases hk : k0 = k
    · subst hk
      have holo : olookup ((k0, v0) :: rest) k0 = some v0 := by
        simp [olookup]
      rw [holo, List.mem_cons]
      constructor
      · intro hl
        injection hl with h1
        exact Or.inl (by rw [h1])
      · intro hm
        rcases hm with he | hm
        · injection he with h1 h2
          rw [h2]
        · exact absurd (List.mem_map_of_mem Prod.fst hm) (by
            simpa using hnd.1)
    · simp only [olookup, if_neg hk, List.mem_cons]
      rw [ih hnd.2]
      constructor
      · intro hm
        exact Or.inr hm
      · intro hm
        rcases hm with he | hm
        · injection he with h1 h2
          exact absurd h1.symm hk
        · exact hm

/-! ### Restoration lemmas for the Subscribe/Unsubscribe round trip -/

theorem eraseClean_insert_restore {γ : Type} [DecidableEq γ]
    (m : Finmap fun _ : URI => Finmap fun _ : ID => γ) (t : URI) (id : ID)
    (v : γ) (hNE : ∀ t' r, m.lookup t' = some r → r ≠ ∅)
    (hid : lookup2 m t id = none) :
    eraseClean (m.insert t (((m.lookup t).getD ∅).insert id v)) t id = m := by
  rcases h : m.lookup t with _ | R
  · rw [Option.getD_none]
    have hlk : (m.insert t ((∅ : Finmap fun _ : ID => γ).insert id
        v)).lookup t = some ((∅ : Finmap fun _ : ID => γ).insert id v) :=
      Finmap.lookup_insert _
    simp only [eraseClean, hlk]
    rw [if_pos (Finmap.mem_insert.mpr (Or.inl rfl))]
    rw [fm_erase_insert Finmap.not_mem_empty]
    rw [if_pos rfl]
    exact fm_erase_insert (Finmap.lookup_eq_none.mp h)
  · have hidR : id ∉ R := by
      rw [← Finmap.lookup_eq_none]
      rcases hv : R.lookup id with _ | w
      · rfl
      · exfalso
        have hh : lookup2 m t id = some w := by
          simp only [lookup2, h]
          exact hv
        rw [hid] at hh
        exact Option.noConfusion hh
    rw [Option.getD_some]
    have hlk : (m.insert t (R.insert id v)).lookup t =
        some (R.insert id v) := Finmap.lookup_insert _
    simp only [eraseClean, hlk]
    rw [if_pos (Finmap.mem_insert.mpr (Or.inl rfl))]
    rw [fm_erase_insert hidR]
    rw [if_neg (hNE t R h)]
    rw [Finmap.insert_insert]
    exact fm_insert_self h

theorem eraseSess_insert_restore (m : Finmap fun _ : SessionRef => Finset ID)
    (s : SessionRef) (id : ID)
    (hNE : ∀ s' S, m.lookup s' = some S → S ≠ ∅)
    (hid : id ∉ (m.lookup s).getD ∅) :
    eraseSess (m.insert s (insert id ((m.lookup s).getD ∅))) s id = m := by
  rcases h : m.lookup s with _ | S
  · rw [Option.getD_none]
    have hlk : (m.insert s (insert id (∅ : Finset ID))).lookup s =
        some (insert id (∅ : Finset ID)) := Finmap.lookup_insert _
    simp only [eraseSess, hlk]
    rw [if_pos (Finset.mem_insert_self _ _)]
    rw [Finset.erase_insert (Finset.not_mem_empty id)]
    rw [if_pos rfl]
    exact fm_erase_insert (Finmap.lookup_eq_none.mp h)
  · have hidS : id ∉ S := by
      rw [h] at hid
      exact hid
    rw [Option.getD_some]
    have hlk : (m.insert s (insert id S)).lookup s =
        some (insert id S) := Finmap.lookup_insert _
    simp only [eraseSess, hlk]
    rw [if_pos (Finset.mem_insert_self _ _)]
    rw [Finset.erase_insert hidS]
    rw [if_neg (hNE s S h)]
    rw [Finmap.insert_insert]
    exact fm_insert_self h

/-! ### Claim theorems -/

/-- C4: for every broker state satisfying the broker invariant and every
session `s`, Subscribe(s, msg) with a fresh ID immediately followed by
Unsubscribe(s, msg') for that ID returns all four maps to exactly their
previous contents (the consumed ID aside, which is gone again). -/
theorem claim4_subscribe_unsubscribe_roundtrip (b : BrokerState)
    (s : SessionRef) (msg : SubscribeMsg) (id req : ID) (hInv : Inv b)
    (hfresh : b.subscriptions.lookup id = none) :
    (unsubscribe (subscribe b s msg id).1 s ⟨req, id⟩).1 = b := by
  obtain ⟨⟨hC1, hC2, hC3, hC4⟩, hNR, hNO, hNS⟩ := hInv
  have hro : lookup2 b.routes msg.topic id = none := by
    rcases hv : lookup2 b.routes msg.topic id with _ | sv
    · rfl
    · have hq := hC2 msg.topic id (by rw [hv]; rfl)
      rw [hfresh] at hq
      exact Option.noConfusion hq
  have hoo : lookup2 b.options msg.topic id = none := by
    rcases hv : lookup2 b.options msg.topic id with _ | sv
    · rfl
    · have hq := hC3 msg.topic id (by rw [hv]; rfl)
      rw [hfresh] at hq
      exact Option.noConfusion hq
  have hsm : id ∉ sset b s := by
    intro hmem
    obtain ⟨t, hts, _⟩ := hC4 s id hmem
    rw [hfresh] at hts
    exact Option.noConfusion hts
  have hsubs1 : (subscribe b s msg id).1.subscriptions.lookup
      (UnsubscribeMsg.mk req id).subscription = some msg.topic :=
    subscribe_subs_at b s msg id
  rw [unsubscribe_eq_some (subscribe b s msg id).1 s ⟨req, id⟩ msg.topic
    hsubs1]
  refine BrokerState.ext ?_ ?_ ?_ ?_
  · exact eraseClean_insert_restore b.options msg.topic id msg.options hNO hoo
  · exact eraseClean_insert_restore b.routes msg.topic id s hNR hro
  · exact fm_erase_insert (Finmap.lookup_eq_none.mp hfresh)
  · exact eraseSess_insert_restore b.sessions s id hNS hsm

/-- C5: Unsubscribe for an ID absent from `subscriptions` sends exactly one
ERROR{UNSUBSCRIBE, msg.request, wamp.error.no_such_subscription} to the
requester, sends no UNSUBSCRIBED, and leaves all four maps unchanged. -/
theorem claim5_unsubscribe_no_such_subscription (b : BrokerState)
    (sub : SessionRef) (msg : UnsubscribeMsg)
    (h : b.subscriptions.lookup msg.subscription = none) :
    unsubscribe b sub msg =
      (b, [(sub, OutMsg.errorMsg MsgType.UNSUBSCRIBE msg.request
              ErrNoSuchSubscription)]) :=
  unsubscribe_eq_none b sub msg h

/-- C6: after RemoveSubscriber(s) the session and every ID it held appear in
none of the four maps; on a session with no `sessions` entry the operation
leaves the state unchanged (missing entries are tolerated: the operations
are total). -/
theorem claim6_remove_subscriber (b : BrokerState) (sub : SessionRef)
    (l : List ID) (hInv : Inv b)
    (henum : ∀ id, id ∈ l ↔ id ∈ sset b sub) :
    ((removeSubscriber b sub l).sessions.lookup sub = none ∧
      ∀ id ∈ l,
        (removeSubscriber b sub l).subscriptions.lookup id = none ∧
        (∀ t, lookup2 (removeSubscriber b sub l).routes t id = none) ∧
        (∀ t, lookup2 (removeSubscriber b sub l).options t id = none) ∧
        (∀ s, id ∉ sset (removeSubscriber b sub l) s)) ∧
    (b.sessions.lookup sub = none → removeSubscriber b sub l = b) := by
  obtain ⟨⟨hC1', hC2', hC3', hC4'⟩, -⟩ :=
    removeSubscriber_preserves_Inv b sub l hInv henum
  refine ⟨⟨?_, ?_⟩, ?_⟩
  · exact Finmap.lookup_erase _ _
  · intro id hid
    have hsn : (removeSubscriber b sub l).subscriptions.lookup id = none :=
      foldl_cleanup_subs_none l b id hid
    refine ⟨hsn, ?_, ?_, ?_⟩
    · intro t
      rcases hv : lookup2 (removeSubscriber b sub l).routes t id with _ | w
      · rfl
      · have hq := hC2' t id (by rw [hv]; rfl)
        rw [hsn] at hq
        exact Option.noConfusion hq
    · intro t
      rcases hv : lookup2 (removeSubscriber b sub l).options t id with _ | w
      · rfl
      · have hq := hC3' t id (by rw [hv]; rfl)
        rw [hsn] at hq
        exact Option.noConfusion hq
    · intro s hmem
      obtain ⟨t, hts, -⟩ := hC4' s id hmem
      rw [hsn] at hts
      exact Option.noConfusion hts
  · intro hnone
    have hl : l = [] := by
      apply List.eq_nil_iff_forall_not_mem.mpr
      intro id hidl
      have hm := (henum id).mp hidl
      simp only [sset, hnone, Option.getD_none] at hm
      exact absurd hm (Finset.not_mem_empty id)
    subst hl
    show { b with sessions := b.sessions.erase sub } = b
    rw [fm_erase_not_mem (Finmap.lookup_eq_none.mp hnone)]

/-- C9: Publish never modifies the broker state: the state component of the
modelled Publish equals the input state for every publisher, message,
publication ID and iteration order. -/
theorem claim9_publish_frame (b : BrokerState) (pub : SessionRef)
    (msg : PublishMsg) (pubID : ID) (l : List (ID × SessionRef)) :
    (publish b pub msg pubID l).1 = b :=
  publishLoop_fst pub msg pubID b l

/-- C10: an Unsubscribe by a session different from the original subscriber
still removes the ID from `subscriptions`, `routes` and `options` and sends
UNSUBSCRIBED to the requester, but the ID stays in `sessions` of the
original subscriber. -/
theorem claim10_cross_session_unsubscribe (b : BrokerState)
    (sub s0 : SessionRef) (msg : UnsubscribeMsg) (t : URI) (hInv : Inv b)
    (hts : b.subscriptions.lookup msg.subscription = some t)
    (hroute : lookup2 b.routes t msg.subscription = some s0)
    (hne : sub ≠ s0) :
    (unsubscribe b sub msg).1.subscriptions.lookup msg.subscription = none ∧
    (∀ t', lookup2 (unsubscribe b sub msg).1.routes t' msg.subscription
      = none) ∧
    (∀ t', lookup2 (unsubscribe b sub msg).1.options t' msg.subscription
      = none) ∧
    (unsubscribe b sub msg).2 = [(sub, OutMsg.unsubscribed msg.request)] ∧
    msg.subscription ∈ sset (unsubscribe b sub msg).1 s0 := by
  obtain ⟨⟨hC1, hC2, hC3, hC4⟩, hNE⟩ := hInv
  rw [unsubscribe_eq_some b sub msg t hts]
  refine ⟨?_, ?_, ?_, rfl, ?_⟩
  · exact Finmap.lookup_erase _ _
  · intro t'
    rw [eraseClean_lookup2]
    by_cases hc : t' = t ∧ msg.subscription = msg.subscription
    · rw [if_pos hc]
    · rw [if_neg hc]
      rcases hv : lookup2 b.routes t' msg.subscription with _ | w
      · rfl
      · have hq := hC2 t' msg.subscription (by rw [hv]; rfl)
        rw [hts] at hq
        injection hq with h1
        exact absurd ⟨h1.symm, rfl⟩ hc
  · intro t'
    rw [eraseClean_lookup2]
    by_cases hc : t' = t ∧ msg.subscription = msg.subscription
    · rw [if_pos hc]
    · rw [if_neg hc]
      rcases hv : lookup2 b.options t' msg.subscription with _ | w
      · rfl
      · have hq := hC3 t' msg.subscription (by rw [hv]; rfl)
        rw [hts] at hq
        injection hq with h1
        exact absurd ⟨h1.symm, rfl⟩ hc
  · apply (eraseSess_mem b.sessions sub msg.subscription s0
      msg.subscription).mpr
    refine ⟨fun hc => hne hc.1.symm, ?_⟩
    obtain ⟨s, hr, -, hs⟩ := hC1 msg.subscription t hts
    rw [hroute] at hr
    injection hr with h1
    rw [h1]
    exact hs

/-- C2: an EVENT of a Publish goes exactly to the entries (id, sub) of
`routes[msg.topic]` whose session is not the publisher and whose captured
options agree with the publisher's options on every shared key; keys on only
one side never disqualify. -/
theorem claim2_publish_filter (b : BrokerState) (pub : SessionRef)
    (msg : PublishMsg) (pubID : ID) (l : List (ID × SessionRef))
    (henum : ∀ id s, (id, s) ∈ l ↔ lookup2 b.routes msg.topic id = some s)
    (hnd : (msg.options.map Prod.fst).Nodup) (id : ID) (s : SessionRef) :
    (s, OutMsg.event id pubID [] msg.arguments msg.argumentsKw) ∈
      (publish b pub msg pubID l).2 ↔
      lookup2 b.routes msg.topic id = some s ∧ s ≠ pub ∧
        ∀ k v v', olookup msg.options k = some v →
          olookup ((lookup2 b.options msg.topic id).getD []) k = some v' →
            v' = v := by
  have hmem : (s, OutMsg.event id pubID [] msg.arguments msg.argumentsKw) ∈
      (publish b pub msg pubID l).2 ↔
      (s, OutMsg.event id pubID [] msg.arguments msg.argumentsKw) ∈
      (publishLoop pub msg pubID b l).2 := by
    simp only [publish, List.mem_append]
    constructor
    · intro hc
      rcases hc with hc | hc
      · exact hc
      · exfalso
        cases hack : ackRequested msg.options
        · rw [hack] at hc
          simp at hc
        · rw [hack] at hc
          simp at hc
    · intro hc
      exact Or.inl hc
  rw [hmem, publishLoop_mem]
  constructor
  · intro hc
    obtain ⟨hm, hnp, hf⟩ := hc
    refine ⟨(henum id s).mp hm, hnp, ?_⟩
    intro k v v' hpv hsv
    exact (optionsFilter_eq_true_iff _ msg.options).mp hf k v
      ((olookup_eq_some_iff_mem msg.options hnd k v).mp hpv) v' hsv
  · intro hc
    obtain ⟨hr, hnp, hopt⟩ := hc
    refine ⟨(henum id s).mpr hr, hnp, ?_⟩
    apply (optionsFilter_eq_true_iff _ msg.options).mpr
    intro k v hkv v' hsv
    exact hopt k v v' ((olookup_eq_some_iff_mem msg.options hnd k v).mpr hkv)
      hsv

/-- C7: PUBLISHED{msg.request, publication} goes to the publisher exactly
when `options["acknowledge"]` is the boolean true — also with zero
subscribers — and it comes after every EVENT of the call. -/
theorem claim7_acknowledge (b : BrokerState) (pub : SessionRef)
    (msg : PublishMsg) (pubID : ID) (l : List (ID × SessionRef)) :
    ((pub, OutMsg.published msg.request pubID) ∈ (publish b pub msg pubID l).2
      ↔ ackRequested msg.options = true) ∧
    ∃ evs, (publish b pub msg pubID l).2 =
        evs ++ (if ackRequested msg.options then
          [(pub, OutMsg.published msg.request pubID)] else []) ∧
      ∀ p ∈ evs, ∃ id s,
        p = (s, OutMsg.event id pubID [] msg.arguments msg.argumentsKw) := by
  constructor
  · constructor
    · intro hmem
      simp only [publish, List.mem_append] at hmem
      rcases hmem with hc | hc
      · exfalso
        obtain ⟨id0, s0, he⟩ := publishLoop_all_events pub msg pubID b l _ hc
        injection he with h1 h2
        exact OutMsg.noConfusion h2
      · cases hack : ackRequested msg.options
        · rw [hack] at hc
          simp at hc
        · rfl
    · intro hack
      simp only [publish, List.mem_append]
      right
      simp [hack]
  · exact ⟨(publishLoop pub msg pubID b l).2, rfl,
      publishLoop_all_events pub msg pubID b l⟩

/-- C1 counterexample: the two-operation sequence "session 0 subscribes to
topic t obtaining ID 1; session 1 (not the subscriber) unsubscribes ID 1"
leaves ID 1 inside `sessions[0]` while it is gone from `subscriptions`, so
the four-map chain invariant fails after an operation of a
Subscribe/Unsubscribe sequence. -/
theorem claim1_cex : ¬ ChainInv (runOps brokerInit
    [BOp.subOp 0 ⟨0, [], "t"⟩ 1, BOp.unsubOp 1 ⟨1, 1⟩]) := by
  intro h
  obtain ⟨-, -, -, h4⟩ := h
  obtain ⟨t, hts, -⟩ := h4 0 1 (by decide)
  have hn : (runOps brokerInit [BOp.subOp 0 ⟨0, [], "t"⟩ 1,
      BOp.unsubOp 1 ⟨1, 1⟩]).subscriptions.lookup 1 = none := by decide
  rw [hn] at hts
  exact Option.noConfusion hts

/-- C1 (amended): after each operation of any sequence of Subscribe /
Unsubscribe / RemoveSubscriber from the empty broker, the four-map chain
invariant holds, provided each Subscribe mints an unregistered ID, each
Unsubscribe of a registered ID is requested by the session that subscribed
it, and each RemoveSubscriber iterates exactly over `sessions[s]`. -/
theorem claim1_invariant_valid_sequences (ops rest : List BOp)
    (hV : ValidSeq brokerInit (ops ++ rest)) :
    ChainInv (runOps brokerInit ops) :=
  (runOps_preserves_Inv brokerInit ops Inv_brokerInit
    (ValidSeq_append_left brokerInit ops rest hV)).1

/-- C1 witness: a concrete valid sequence (subscribe by session 0, then
unsubscribe by the same session) and the invariant after it. -/
theorem claim1_witness :
    ValidSeq brokerInit ([BOp.subOp 0 ⟨0, [], "t"⟩ 1,
        BOp.unsubOp 0 ⟨1, 1⟩] ++ []) ∧
    ChainInv (runOps brokerInit [BOp.subOp 0 ⟨0, [], "t"⟩ 1,
        BOp.unsubOp 0 ⟨1, 1⟩]) := by
  have hV : ValidSeq brokerInit ([BOp.subOp 0 ⟨0, [], "t"⟩ 1,
      BOp.unsubOp 0 ⟨1, 1⟩] ++ []) := by
    apply ValidSeq.cons
    · show brokerInit.subscriptions.lookup 1 = none
      decide
    · apply ValidSeq.cons
      · intro t ht
        have hc : (stepOp brokerInit
            (BOp.subOp 0 ⟨0, [], "t"⟩ 1)).subscriptions.lookup 1 =
            some "t" := by decide
        rw [hc] at ht
        injection ht with h1
        rw [← h1]
        decide
      · exact ValidSeq.nil _
  exact ⟨hV, claim1_invariant_valid_sequences _ [] hV⟩

/-- C3 counterexample: at a non-closing router whose first receive fails,
Accept's peer-visible effects do not include closing the peer, contrary to
the claim that the peer is closed on receive timeout/error. -/
theorem claim3_cex : AcceptEffect.closePeer ∉
    (accept { realms := [], closing := false } (Except.error "timeout")
      (Except.ok ())).1 := by
  decide

/-- C3 (amended): when the router is not closing and the first receive
fails (timeout or error), Accept returns that error, creates no session and
sends no WELCOME or ABORT — and performs no peer effect at all, so in
particular it does not close the peer. -/
theorem claim3_recv_error (r : RouterState) (e : String)
    (auth : Except String Unit) (h : r.closing = false) :
    accept r (Except.error e) auth = ([], some e) := by
  simp [accept, h]

/-- C3 witness: the amended behaviour at a concrete router and error. -/
theorem claim3_witness : accept { realms := [], closing := false }
    (Except.error "timeout") (Except.ok ()) = ([], some "timeout") :=
  claim3_recv_error { realms := [], closing := false } "timeout"
    (Except.ok ()) rfl

/-- C8: the first Close marks `closing` and closes every registered realm
with no error; a Close on a closing router fails with "already closed" and
closes nothing; `closing` stays true after Close, and RegisterRealm never
changes it (Accept is modelled without state change). -/
theorem claim8_close_idempotent (r : RouterState) :
    (r.closing = false →
      routerClose r = ({ r with closing := true }, none, r.realms)) ∧
    (r.closing = true →
      routerClose r = (r, some "already closed", [])) ∧
    (routerClose r).1.closing = true ∧
    (∀ uri, (registerRealm r uri).1.closing = r.closing) := by
  refine ⟨?_, ?_, ?_, ?_⟩
  · intro h
    simp [routerClose, h]
  · intro h
    simp [routerClose, h]
  · cases h : r.closing
    · simp [routerClose, h]
    · simp [routerClose, h]
  · intro uri
    by_cases h : uri ∈ r.realms
    · simp [registerRealm, h]
    · simp [registerRealm, h]

/-- C8 witness: first and second Close at a concrete router. -/
theorem claim8_witness :
    routerClose { realms := ["r1"], closing := false } =
      ({ realms := ["r1"], closing := true }, none, ["r1"]) ∧
    routerClose { realms := ["r1"], closing := true } =
      ({ realms := ["r1"], closing := true }, some "already closed", []) :=
  ⟨(claim8_close_idempotent { realms := ["r1"], closing := false }).1 rfl,
   (claim8_close_idempotent { realms := ["r1"], closing := true }).2.1 rfl⟩

/-- C2 witness: the characterisation at the empty broker, an empty
enumeration and empty publish options. -/
theorem claim2_witness :
    ((1, OutMsg.event 0 5 [] [] []) ∈
      (publish brokerInit 1 ⟨0, [], "t", [], []⟩ 5 []).2 ↔
      lookup2 brokerInit.routes "t" 0 = some 1 ∧ (1 : SessionRef) ≠ 1 ∧
        ∀ k v v', olookup [] k = some v →
          olookup ((lookup2 brokerInit.options "t" 0).getD []) k = some v' →
            v' = v) :=
  claim2_publish_filter brokerInit 1 ⟨0, [], "t", [], []⟩ 5 []
    (fun id s => by simp [brokerInit, lookup2, Finmap.lookup_empty]) (by simp)
    0 1

/-- C4 witness: round trip at the empty broker. -/
theorem claim4_witness :
    (unsubscribe (subscribe brokerInit 0 ⟨0, [], "t"⟩ 1).1 0 ⟨1, 1⟩).1 =
      brokerInit :=
  claim4_subscribe_unsubscribe_roundtrip brokerInit 0 ⟨0, [], "t"⟩ 1 1
    Inv_brokerInit (by decide)

/-- C5 witness: unknown-subscription Unsubscribe at the empty broker. -/
theorem claim5_witness : unsubscribe brokerInit 2 ⟨7, 3⟩ =
    (brokerInit, [(2, OutMsg.errorMsg MsgType.UNSUBSCRIBE 7
        ErrNoSuchSubscription)]) :=
  claim5_unsubscribe_no_such_subscription brokerInit 2 ⟨7, 3⟩ (by decide)

/-- C6 witness: RemoveSubscriber of a session with no subscriptions is a
no-op at the empty broker. -/
theorem claim6_witness : removeSubscriber brokerInit 0 [] = brokerInit :=
  (claim6_remove_subscriber brokerInit 0 [] Inv_brokerInit
    (fun id => by simp [sset, brokerInit, Finmap.lookup_empty])).2 (by decide)

/-- C10 witness: session 2 unsubscribes ID 1 subscribed by session 0; the ID
leaves `subscriptions` but stays in `sessions[0]`. -/
theorem claim10_witness :
    (unsubscribe (subscribe brokerInit 0 ⟨0, [], "t"⟩ 1).1 2
      ⟨9, 1⟩).1.subscriptions.lookup 1 = none ∧
    (1 : ID) ∈ sset (unsubscribe (subscribe brokerInit 0 ⟨0, [], "t"⟩ 1).1 2
      ⟨9, 1⟩).1 0 := by
  have h := claim10_cross_session_unsubscribe
    (subscribe brokerInit 0 ⟨0, [], "t"⟩ 1).1 2 0 ⟨9, 1⟩ "t"
    (subscribe_preserves_Inv brokerInit 0 ⟨0, [], "t"⟩ 1 Inv_brokerInit
      (by decide))
    (by decide) (by decide) (by decide)
  exact ⟨h.1, h.2.2.2.2⟩

end Turnpike
